import Mathlib

/-!
Shallow embedding of the credential pool manager (`KeyManager`) of the
gemini-balance reverse proxy, together with proofs of the specification
claims about selection, failure tracking, health checks and the
singleton lifecycle.

Modelling conventions:
* The mutable `KeyManager` object is a `KMState` record threaded
  explicitly through every operation.
* The JS `Map<string, number>` / `Map<string, Date>` fields are modelled
  as functions `String → Option Nat` (a key absent from the map is
  `none`); `Map.set` is a pointwise functional update guarded by the
  same `has` test the source performs.
* The itertools `cycle(this.keys)` iterator is modelled by a `cursor`
  counter: the n-th `next()` call returns `keys[cursor % keys.length]`
  and increments the cursor, which is exactly the behaviour of `cycle`
  over the frozen `keys` array.
* `Date` timestamps are opaque `Nat` values supplied by the caller.
* The upstream world seen by `verifyKey` (the `fetch` of the health
  check probe together with `getSettings`) is an explicit
  `UpstreamOutcome` parameter: the probe either produced a response
  with some HTTP status, or the transport rejected, or loading the
  settings threw; all three are inside the source's `try` block.
* Thrown errors of `getNextWorkingKey` become an `Except`-style result
  paired with the state as it stands when the throw happens (the cycle
  cursor advances during the failed scan, exactly as in the source).
-/

namespace GeminiBalance

/-- Error kinds thrown by `getNextWorkingKey`. -/
inductive KMError where
  | noKeysAvailable
  | allKeysFailing
deriving DecidableEq, Repr

/-- State of a `KeyManager` instance: the frozen key list, the position
of the `cycle` iterator, the two maps and the configured threshold. -/
structure KMState where
  keys : List String
  cursor : Nat
  failureCounts : String → Option Nat
  lastFailureTimes : String → Option Nat
  maxFailures : Nat

/-- The `KeyManager` constructor: freezes the key list, starts a fresh
cycle, maps every listed key to failure count 0 and leaves the
last-failure map empty. -/
def KeyManager.init (keys : List String) (maxFailures : Nat) : KMState where
  keys := keys
  cursor := 0
  failureCounts := fun k => if k ∈ keys then some 0 else none
  lastFailureTimes := fun _ => none
  maxFailures := maxFailures

/-- Definition of `isKeyValid`: the key is known and its failure count is strictly
below `maxFailures`. -/
def isKeyValid (s : KMState) (key : String) : Bool :=
  match s.failureCounts key with
  | some failures => failures < s.maxFailures
  | none => false

/-- The bounded scan inside `getNextWorkingKey`: up to `fuel` iterations,
each drawing the next key from the cycle (`keys[c % keys.length]`,
cursor incremented) and returning the first valid one together with the
cursor after the draw; `(none, c')` when the fuel runs out. -/
def nextKeyLoop (s : KMState) : Nat → Nat → Option String × Nat
  | 0, c => (none, c)
  | fuel + 1, c =>
      let key := s.keys.getD (c % s.keys.length) ""
      if isKeyValid s key then (some key, c + 1)
      else nextKeyLoop s fuel (c + 1)

/-- Definition of `getNextWorkingKey`: throws `NoKeysAvailable` on an empty key list;
otherwise scans at most `keys.length` cycle positions for a valid key,
returning it, or throws `AllKeysFailing`. The returned state records
the cursor as advanced by the scan. -/
def getNextWorkingKey (s : KMState) : Except KMError String × KMState :=
  if s.keys.length = 0 then (.error .noKeysAvailable, s)
  else
    match nextKeyLoop s s.keys.length s.cursor with
    | (some key, c) => (.ok key, { s with cursor := c })
    | (none, c) => (.error .allKeysFailing, { s with cursor := c })

/-- Definition of `handleApiFailure`: if the key is in the failure-count map,
increment its count and set its last-failure time to `now`; otherwise
do nothing. -/
def handleApiFailure (s : KMState) (key : String) (now : Nat) : KMState :=
  match s.failureCounts key with
  | some currentFailures =>
      { s with
        failureCounts := fun k =>
          if k = key then some (currentFailures + 1) else s.failureCounts k
        lastFailureTimes := fun k =>
          if k = key then some now else s.lastFailureTimes k }
  | none => s

/-- Definition of `resetKeyFailureCount`: if the key is in the failure-count map, set
its count to 0 and delete its last-failure time; otherwise do nothing. -/
def resetKeyFailureCount (s : KMState) (key : String) : KMState :=
  match s.failureCounts key with
  | some _ =>
      { s with
        failureCounts := fun k =>
          if k = key then some 0 else s.failureCounts k
        lastFailureTimes := fun k =>
          if k = key then none else s.lastFailureTimes k }
  | none => s

/-- One row of the `getAllKeys` snapshot. -/
structure KeyInfo where
  key : String
  failCount : Nat
  isWorking : Bool
  lastFailedAt : Option Nat
deriving DecidableEq, Repr

/-- Definition of `getAllKeys`: one row per entry of the key list, in order. The
source reads `failureCounts.get(key)!`; the `getD 0` models the
non-null assertion, which is justified because the constructor maps
every listed key. -/
def getAllKeys (s : KMState) : List KeyInfo :=
  s.keys.map fun key =>
    { key := key
      failCount := (s.failureCounts key).getD 0
      isWorking := isKeyValid s key
      lastFailedAt := s.lastFailureTimes key }

/-- What the outside world does when `verifyKey` probes the upstream
API: the probe resolves with an HTTP status, or the transport rejects,
or `getSettings` throws. -/
inductive UpstreamOutcome where
  | response (status : Nat)
  | transportError
  | settingsError
deriving DecidableEq, Repr

/-- The `response.ok` test of the Fetch API: status in the 2xx range. -/
def responseOk (status : Nat) : Bool :=
  200 ≤ status && status < 300

/-- Definition of `verifyKey`: inside a `try` block, probe the upstream API with the
key. On a 2xx response, call `resetKeyFailureCount` on the key and
return `true`; a non-2xx response raises, which the `catch` turns into
`false` with no state change, as do a transport rejection and a
settings failure. -/
def verifyKey (s : KMState) (key : String) (o : UpstreamOutcome) :
    Bool × KMState :=
  match o with
  | .response status =>
      if responseOk status then (true, resetKeyFailureCount s key)
      else (false, s)
  | .transportError => (false, s)
  | .settingsError => (false, s)

/-- Definition of `checkAndReactivateKeys`: compute the keys that are invalid at the
start of the sweep and run `verifyKey` on each of them in order,
threading the state; `outcome` gives the upstream behaviour for each
probed key. -/
def checkAndReactivateKeys (s : KMState) (outcome : String → UpstreamOutcome) :
    KMState :=
  (s.keys.filter fun key => !(isKeyValid s key)).foldl
    (fun st key => (verifyKey st key (outcome key)).2) s

/-- An upstream outcome counts as a successful health probe exactly when
it is a response with a 2xx status. -/
def outcomeOk : UpstreamOutcome → Bool
  | .response status => responseOk status
  | .transportError => false
  | .settingsError => false

/-- Iterated `handleApiFailure` on one key, with `times i` the timestamp
of the i-th report. -/
def repeatFailures (s : KMState) (key : String) (times : Nat → Nat) :
    Nat → KMState
  | 0 => s
  | n + 1 => handleApiFailure (repeatFailures s key times n) key (times n)

/-- State after one `getNextWorkingKey` call (the result is dropped). -/
def stepKM (s : KMState) : KMState :=
  (getNextWorkingKey s).2

/-- State after `n` consecutive `getNextWorkingKey` calls. -/
def iterKM (s : KMState) : Nat → KMState
  | 0 => s
  | n + 1 => stepKM (iterKM s n)

/-- Result of the `(n+1)`-st consecutive `getNextWorkingKey` call. -/
def nthResult (s : KMState) (n : Nat) : Except KMError String :=
  (getNextWorkingKey (iterKM s n)).1

/-- Definition of `createKeyManager`: build a fresh `KeyManager` from the key rows of
the external store and the configured threshold. -/
def createKeyManager (dbKeys : List String) (maxFailures : Nat) : KMState :=
  KeyManager.init dbKeys maxFailures

/-- Definition of `resetKeyManager`: clear the global singleton slot when it is set. -/
def resetKeyManager (g : Option KMState) : Option KMState :=
  match g with
  | some _ => none
  | none => g

/-- Definition of `getKeyManager`: return the construction already stored in the
global slot, or store and return a fresh construction from the external
store. The first component is the slot after the call, the second the
construction the caller receives. -/
def getKeyManager (g : Option KMState) (dbKeys : List String)
    (maxFailures : Nat) : Option KMState × KMState :=
  match g with
  | some inst => (some inst, inst)
  | none => (some (createKeyManager dbKeys maxFailures),
             createKeyManager dbKeys maxFailures)

/-! ### Helper lemmas -/

/-- An in-range `getD` is a member of the list. -/
lemma getD_mem (l : List String) (i : Nat) (d : String) (h : i < l.length) :
    l.getD i d ∈ l := by
  rw [List.getD_eq_getElem?_getD, List.getElem?_eq_getElem h]
  exact List.getElem_mem h

/-- When every key of the pool is invalid, the bounded scan consumes all
its fuel, advancing the cursor one position per unit of fuel, and finds
nothing. -/
lemma nextKeyLoop_all_invalid (s : KMState) (hN : 0 < s.keys.length)
    (hall : ∀ k ∈ s.keys, isKeyValid s k = false) :
    ∀ fuel c, nextKeyLoop s fuel c = (none, c + fuel) := by
  intro fuel
  induction fuel with
  | zero => intro c; simp [nextKeyLoop]
  | succ n ih =>
      intro c
      have hmem : s.keys.getD (c % s.keys.length) "" ∈ s.keys :=
        getD_mem _ _ _ (Nat.mod_lt _ hN)
      have hinv := hall _ hmem
      rw [nextKeyLoop]
      simp only [hinv, Bool.false_eq_true, if_false, ih]
      have : c + 1 + n = c + (n + 1) := by omega
      rw [this]

/-- When the key drawn at the current cursor position is valid, the scan
returns it immediately, advancing the cursor once. -/
lemma nextKeyLoop_head_valid (s : KMState) (fuel c : Nat)
    (h : isKeyValid s (s.keys.getD (c % s.keys.length) "") = true) :
    nextKeyLoop s (fuel + 1) c =
      (some (s.keys.getD (c % s.keys.length) ""), c + 1) := by
  rw [nextKeyLoop]
  simp only [h]
  rfl

/-- In an all-healthy pool, `getNextWorkingKey` returns the key at the
cursor position and advances the cursor by exactly one. -/
lemma getNextWorkingKey_all_healthy (s : KMState) (hN : 0 < s.keys.length)
    (hall : ∀ k ∈ s.keys, isKeyValid s k = true) :
    getNextWorkingKey s =
      (.ok (s.keys.getD (s.cursor % s.keys.length) ""),
       { s with cursor := s.cursor + 1 }) := by
  have h0 : ¬ s.keys.length = 0 := by omega
  have hmem : s.keys.getD (s.cursor % s.keys.length) "" ∈ s.keys :=
    getD_mem _ _ _ (Nat.mod_lt _ hN)
  have hv := hall _ hmem
  obtain ⟨m, hm⟩ : ∃ m, s.keys.length = m + 1 := ⟨s.keys.length - 1, by omega⟩
  rw [getNextWorkingKey, if_neg h0, hm, nextKeyLoop_head_valid s m s.cursor hv,
    ← hm]

/-- The call `handleApiFailure` never changes the configured threshold. -/
lemma handleApiFailure_maxFailures (s : KMState) (key : String) (t : Nat) :
    (handleApiFailure s key t).maxFailures = s.maxFailures := by
  cases h : s.failureCounts key <;> simp [handleApiFailure, h]

/-- Iterated failure reports never change the configured threshold. -/
lemma repeatFailures_maxFailures (s : KMState) (key : String)
    (times : Nat → Nat) : ∀ k,
    (repeatFailures s key times k).maxFailures = s.maxFailures := by
  intro k
  induction k with
  | zero => rfl
  | succ n ih => rw [repeatFailures, handleApiFailure_maxFailures, ih]

/-- Rotation surjectivity: starting anywhere, within one full cycle the
rotation reaches every index of the pool. -/
lemma rotation_hits (N c idx : Nat) (hN : 0 < N) (hidx : idx < N) :
    ∃ i, i < N ∧ (c + i) % N = idx := by
  obtain ⟨q, r, hqr, hrN⟩ : ∃ q r, c = N * q + r ∧ r < N :=
    ⟨c / N, c % N, (Nat.div_add_mod c N).symm, Nat.mod_lt _ hN⟩
  by_cases h : r ≤ idx
  · refine ⟨idx - r, by omega, ?_⟩
    have h1 : c + (idx - r) = N * q + idx := by
      generalize N * q = m at hqr ⊢
      omega
    rw [h1, Nat.mul_add_mod, Nat.mod_eq_of_lt hidx]
  · refine ⟨idx + N - r, by omega, ?_⟩
    have h2 : N * (q + 1) = N * q + N := by ring
    have h1 : c + (idx + N - r) = N * (q + 1) + idx := by
      rw [h2]
      generalize N * q = m at hqr ⊢
      omega
    rw [h1, Nat.mul_add_mod, Nat.mod_eq_of_lt hidx]

/-- One healthy-pool selection step only advances the cursor. -/
lemma stepKM_all_healthy (s : KMState) (hN : 0 < s.keys.length)
    (hall : ∀ k ∈ s.keys, isKeyValid s k = true) :
    stepKM s = { s with cursor := s.cursor + 1 } := by
  rw [stepKM, getNextWorkingKey_all_healthy s hN hall]

/-- After `i` healthy-pool selections the state differs from the start
only in the cursor, which has advanced by exactly `i`. -/
lemma iterKM_all_healthy (s : KMState) (hN : 0 < s.keys.length)
    (hall : ∀ k ∈ s.keys, isKeyValid s k = true) :
    ∀ i, iterKM s i = { s with cursor := s.cursor + i } := by
  intro i
  induction i with
  | zero => rfl
  | succ n ih =>
      have hN' : 0 < ({ s with cursor := s.cursor + n } : KMState).keys.length :=
        hN
      have hall' : ∀ k ∈ ({ s with cursor := s.cursor + n } : KMState).keys,
          isKeyValid { s with cursor := s.cursor + n } k = true := hall
      rw [iterKM, ih, stepKM_all_healthy _ hN' hall']
      have h1 : s.cursor + n + 1 = s.cursor + (n + 1) := by omega
      rw [h1]

/-- The `(i+1)`-st healthy-pool selection returns the key at rotation
position `cursor + i`. -/
lemma nthResult_all_healthy (s : KMState) (hN : 0 < s.keys.length)
    (hall : ∀ k ∈ s.keys, isKeyValid s k = true) (i : Nat) :
    nthResult s i =
      .ok (s.keys.getD ((s.cursor + i) % s.keys.length) "") := by
  rw [nthResult, iterKM_all_healthy s hN hall i]
  have hN' : 0 < ({ s with cursor := s.cursor + i } : KMState).keys.length :=
    hN
  have hall' : ∀ k ∈ ({ s with cursor := s.cursor + i } : KMState).keys,
      isKeyValid { s with cursor := s.cursor + i } k = true := hall
  rw [getNextWorkingKey_all_healthy _ hN' hall']

/-- The call `resetKeyFailureCount` on a known key zeroes its count and clears
its timestamp. -/
lemma resetKeyFailureCount_self (s : KMState) (key : String)
    (h : (s.failureCounts key).isSome) :
    (resetKeyFailureCount s key).failureCounts key = some 0 ∧
    (resetKeyFailureCount s key).lastFailureTimes key = none := by
  cases hfc : s.failureCounts key with
  | none => rw [hfc] at h; simp at h
  | some n => rw [resetKeyFailureCount, hfc]; exact ⟨by simp, by simp⟩

/-- The call `resetKeyFailureCount` touches no entry of a different key. -/
lemma resetKeyFailureCount_other (s : KMState) (key k : String) (h : k ≠ key) :
    (resetKeyFailureCount s key).failureCounts k = s.failureCounts k ∧
    (resetKeyFailureCount s key).lastFailureTimes k = s.lastFailureTimes k := by
  cases hfc : s.failureCounts key with
  | none => rw [resetKeyFailureCount, hfc]; exact ⟨rfl, rfl⟩
  | some n => rw [resetKeyFailureCount, hfc]; exact ⟨by simp [h], by simp [h]⟩

/-- The call `resetKeyFailureCount` never removes a key from the count map. -/
lemma resetKeyFailureCount_isSome (s : KMState) (key k : String)
    (h : (s.failureCounts k).isSome) :
    ((resetKeyFailureCount s key).failureCounts k).isSome := by
  by_cases hk : k = key
  · subst hk
    cases hfc : s.failureCounts k with
    | none => rw [hfc] at h; simp at h
    | some n => rw [resetKeyFailureCount, hfc]; simp
  · rw [(resetKeyFailureCount_other s key k hk).1]; exact h

/-- On a successful probe, `verifyKey` returns `true` paired with the
state after the reset. -/
lemma verifyKey_state_ok (s : KMState) (key : String) (o : UpstreamOutcome)
    (h : outcomeOk o = true) :
    verifyKey s key o = (true, resetKeyFailureCount s key) := by
  cases o with
  | response st =>
      have hst : responseOk st = true := by simpa [outcomeOk] using h
      rw [verifyKey, if_pos hst]
  | transportError => simp [outcomeOk] at h
  | settingsError => simp [outcomeOk] at h

/-- On a failed probe, `verifyKey` returns `false` with the state
untouched. -/
lemma verifyKey_state_fail (s : KMState) (key : String) (o : UpstreamOutcome)
    (h : outcomeOk o = false) :
    verifyKey s key o = (false, s) := by
  cases o with
  | response st =>
      have hst : responseOk st = false := by simpa [outcomeOk] using h
      rw [verifyKey, hst]
      simp
  | transportError => rfl
  | settingsError => rfl

/-- A `verifyKey` call on one key touches no entry of a different key. -/
lemma verifyKey_frame_other (s : KMState) (key k : String)
    (o : UpstreamOutcome) (h : k ≠ key) :
    (verifyKey s key o).2.failureCounts k = s.failureCounts k ∧
    (verifyKey s key o).2.lastFailureTimes k = s.lastFailureTimes k := by
  cases hok : outcomeOk o with
  | true => rw [verifyKey_state_ok s key o hok]; exact resetKeyFailureCount_other s key k h
  | false => rw [verifyKey_state_fail s key o hok]; exact ⟨rfl, rfl⟩

/-- A `verifyKey` call never removes a key from the count map. -/
lemma verifyKey_isSome (s : KMState) (key k : String) (o : UpstreamOutcome)
    (h : (s.failureCounts k).isSome) :
    ((verifyKey s key o).2.failureCounts k).isSome := by
  cases hok : outcomeOk o with
  | true => rw [verifyKey_state_ok s key o hok]; exact resetKeyFailureCount_isSome s key k h
  | false => rw [verifyKey_state_fail s key o hok]; exact h

/-- Once a key's entries read as freshly reset, every later sweep step
keeps them so. -/
lemma sweep_fold_keeps_reset (outcome : String → UpstreamOutcome)
    (k : String) :
    ∀ (l : List String) (st : KMState),
      st.failureCounts k = some 0 → st.lastFailureTimes k = none →
      ((l.foldl (fun st key => (verifyKey st key (outcome key)).2)
          st).failureCounts k = some 0 ∧
       (l.foldl (fun st key => (verifyKey st key (outcome key)).2)
          st).lastFailureTimes k = none) := by
  intro l
  induction l with
  | nil => intro st h1 h2; exact ⟨h1, h2⟩
  | cons a l ih =>
      intro st h1 h2
      rw [List.foldl_cons]
      by_cases ha : k = a
      · subst ha
        cases hok : outcomeOk (outcome k) with
        | true =>
            have hs := resetKeyFailureCount_self st k (by rw [h1]; rfl)
            rw [verifyKey_state_ok st k (outcome k) hok]
            exact ih _ hs.1 hs.2
        | false =>
            rw [verifyKey_state_fail st k (outcome k) hok]
            exact ih st h1 h2
      · have hf := verifyKey_frame_other st a k (outcome a) ha
        exact ih _ (hf.1.trans h1) (hf.2.trans h2)

/-- A key probed successfully somewhere in the sweep ends the sweep
with a zero count and no timestamp. -/
lemma sweep_fold_reset (outcome : String → UpstreamOutcome) (k : String)
    (hok : outcomeOk (outcome k) = true) :
    ∀ (l : List String) (st : KMState), k ∈ l →
      (st.failureCounts k).isSome →
      ((l.foldl (fun st key => (verifyKey st key (outcome key)).2)
          st).failureCounts k = some 0 ∧
       (l.foldl (fun st key => (verifyKey st key (outcome key)).2)
          st).lastFailureTimes k = none) := by
  intro l
  induction l with
  | nil => intro st hmem; exact absurd hmem (List.not_mem_nil k)
  | cons a l ih =>
      intro st hmem hsome
      rw [List.foldl_cons]
      by_cases ha : k = a
      · subst ha
        have hs := resetKeyFailureCount_self st k hsome
        rw [verifyKey_state_ok st k (outcome k) hok]
        exact sweep_fold_keeps_reset outcome k l _ hs.1 hs.2
      · have hmem' : k ∈ l := by
          cases List.mem_cons.mp hmem with
          | inl h => exact absurd h ha
          | inr h => exact h
        exact ih _ hmem' (verifyKey_isSome st a k (outcome a) hsome)

/-- A key whose probe fails keeps its entries through the whole sweep,
whatever happens to the other keys. -/
lemma sweep_fold_frame_fail (outcome : String → UpstreamOutcome)
    (k : String) (hfail : outcomeOk (outcome k) = false) :
    ∀ (l : List String) (st : KMState),
      ((l.foldl (fun st key => (verifyKey st key (outcome key)).2)
          st).failureCounts k = st.failureCounts k ∧
       (l.foldl (fun st key => (verifyKey st key (outcome key)).2)
          st).lastFailureTimes k = st.lastFailureTimes k) := by
  intro l
  induction l with
  | nil => intro st; exact ⟨rfl, rfl⟩
  | cons a l ih =>
      intro st
      rw [List.foldl_cons]
      by_cases ha : k = a
      · subst ha
        rw [verifyKey_state_fail st k (outcome k) hfail]
        exact ih st
      · have hf := verifyKey_frame_other st a k (outcome a) ha
        exact ⟨(ih _).1.trans hf.1, (ih _).2.trans hf.2⟩

/-- A key that is never probed keeps its entries through the sweep. -/
lemma sweep_fold_frame_notmem (outcome : String → UpstreamOutcome)
    (k : String) :
    ∀ (l : List String) (st : KMState), k ∉ l →
      ((l.foldl (fun st key => (verifyKey st key (outcome key)).2)
          st).failureCounts k = st.failureCounts k ∧
       (l.foldl (fun st key => (verifyKey st key (outcome key)).2)
          st).lastFailureTimes k = st.lastFailureTimes k) := by
  intro l
  induction l with
  | nil => intro st _; exact ⟨rfl, rfl⟩
  | cons a l ih =>
      intro st hnot
      rw [List.foldl_cons]
      have ha : k ≠ a := fun h => hnot (h ▸ List.mem_cons_self a l)
      have hnl : k ∉ l := fun h => hnot (List.mem_cons_of_mem a h)
      have hf := verifyKey_frame_other st a k (outcome a) ha
      exact ⟨(ih _ hnl).1.trans hf.1, (ih _ hnl).2.trans hf.2⟩

/-- The call `handleApiFailure` never changes the key list. -/
lemma handleApiFailure_keys (s : KMState) (key : String) (t : Nat) :
    (handleApiFailure s key t).keys = s.keys := by
  cases h : s.failureCounts key <;> simp [handleApiFailure, h]

/-- Iterated failure reports never change the key list. -/
lemma repeatFailures_keys (s : KMState) (key : String) (times : Nat → Nat) :
    ∀ k, (repeatFailures s key times k).keys = s.keys := by
  intro k
  induction k with
  | zero => rfl
  | succ n ih => rw [repeatFailures, handleApiFailure_keys, ih]

/-- One failure report on a known key bumps its count by one. -/
lemma handleApiFailure_count (s : KMState) (key : String) (n t : Nat)
    (h : s.failureCounts key = some n) :
    (handleApiFailure s key t).failureCounts key = some (n + 1) := by
  rw [handleApiFailure, h]
  simp

/-- From a fresh pool, `k` failure reports on a listed key leave its
count at exactly `k`. -/
lemma repeatFailures_count (keys : List String) (mf : Nat) (key : String)
    (times : Nat → Nat) (hk : key ∈ keys) :
    ∀ k, (repeatFailures (KeyManager.init keys mf) key times k).failureCounts
      key = some k := by
  intro k
  induction k with
  | zero => simp [repeatFailures, KeyManager.init, hk]
  | succ n ih => exact handleApiFailure_count _ key n (times n) ih

/-- Every listed key of a fresh pool with a positive threshold is
valid. -/
lemma init_all_healthy (keys : List String) (mf : Nat) (hmf : 0 < mf) :
    ∀ k ∈ keys, isKeyValid (KeyManager.init keys mf) k = true := by
  intro k hk
  simp [isKeyValid, KeyManager.init, hk, hmf]

/-- The snapshot rows whose key equals a given credential are exactly
as numerous as that credential's occurrences in the key list. -/
lemma getAllKeys_filter_length (s : KMState) (key : String) :
    ((getAllKeys s).filter fun r => r.key == key).length =
      s.keys.count key := by
  rw [getAllKeys]
  generalize s.keys = l
  induction l with
  | nil => rfl
  | cons a l ih =>
      rw [List.map_cons, List.filter_cons, List.count_cons]
      by_cases ha : (a == key) = true
      · simp only [ha, if_true]
        simp [ih]
      · simp only [ha, if_false]
        simp [ih, ha]

/-! ### The claims -/

/-- C6: a credential absent from the failure-count map makes both
`handleApiFailure` and `resetKeyFailureCount` complete no-ops: the
whole state, maps, key list and cursor included, is returned
unchanged. -/
theorem C6_unknown_credential_noop (s : KMState) (key : String) (t : Nat)
    (h : s.failureCounts key = none) :
    handleApiFailure s key t = s ∧ resetKeyFailureCount s key = s := by
  constructor
  · rw [handleApiFailure, h]
  · rw [resetKeyFailureCount, h]

/-- C6 witness at a concrete input: key "Z" is not in the pool
["A", "B"], and both calls leave the state untouched. -/
theorem C6_unknown_credential_noop_witness :
    handleApiFailure (KeyManager.init ["A", "B"] 3) "Z" 42 =
        KeyManager.init ["A", "B"] 3 ∧
    resetKeyFailureCount (KeyManager.init ["A", "B"] 3) "Z" =
        KeyManager.init ["A", "B"] 3 :=
  C6_unknown_credential_noop (KeyManager.init ["A", "B"] 3) "Z" 42 (by decide)

/-- C5: for a credential present in the pool, `resetKeyFailureCount`
sets its failure count to exactly 0 and deletes its last-failure entry,
after which the credential is valid whenever `maxFailures ≥ 1`. -/
theorem C5_success_reset (s : KMState) (key : String)
    (h : (s.failureCounts key).isSome) :
    (resetKeyFailureCount s key).failureCounts key = some 0 ∧
    (resetKeyFailureCount s key).lastFailureTimes key = none ∧
    (1 ≤ s.maxFailures → isKeyValid (resetKeyFailureCount s key) key = true) := by
  cases hfc : s.failureCounts key with
  | none => rw [hfc] at h; simp at h
  | some n =>
      rw [resetKeyFailureCount, hfc]
      refine ⟨by simp, by simp, fun h1 => ?_⟩
      simp only [isKeyValid, if_pos rfl]
      simpa using h1

/-- C5 witness at a concrete input: after two recorded failures on "A",
the reset brings its count back to 0, clears the timestamp, and makes
it valid again. -/
theorem C5_success_reset_witness :
    (resetKeyFailureCount
        (handleApiFailure (handleApiFailure (KeyManager.init ["A"] 3) "A" 1) "A" 2)
        "A").failureCounts "A" = some 0 ∧
    (resetKeyFailureCount
        (handleApiFailure (handleApiFailure (KeyManager.init ["A"] 3) "A" 1) "A" 2)
        "A").lastFailureTimes "A" = none ∧
    isKeyValid
      (resetKeyFailureCount
        (handleApiFailure (handleApiFailure (KeyManager.init ["A"] 3) "A" 1) "A" 2)
        "A") "A" = true := by
  have h := C5_success_reset
    (handleApiFailure (handleApiFailure (KeyManager.init ["A"] 3) "A" 1) "A" 2)
    "A" (by decide)
  exact ⟨h.1, h.2.1, h.2.2 (by decide)⟩

/-- C7: `verifyKey` never propagates an error (in the embedding it is a
total function into `Bool × KMState`); its boolean result is `true`
exactly when the upstream probe resolved with a 2xx status, and `false`
for every non-2xx response, transport rejection, and settings
failure. -/
theorem C7_health_check_containment (s : KMState) (key : String) :
    ∀ o : UpstreamOutcome,
      ((verifyKey s key o).1 = true ↔
        ∃ st, o = .response st ∧ 200 ≤ st ∧ st < 300) := by
  intro o
  cases o with
  | response st =>
      by_cases h : responseOk st = true
      · have hrange : 200 ≤ st ∧ st < 300 := by
          simpa [responseOk] using h
        simp [verifyKey, h, hrange]
      · have hrange : ¬ (200 ≤ st ∧ st < 300) := by
          simpa [responseOk] using h
        simp only [verifyKey, if_neg h]
        simp [hrange]
  | transportError => simp [verifyKey]
  | settingsError => simp [verifyKey]

/-- C9: the singleton slot guarantees convergence: a second
`getKeyManager` call, even racing with different store contents, sees
the slot filled by the first and returns the very same construction;
with the slot already filled the call is a pure read; after
`resetKeyManager` the next call rebuilds from the external store. -/
theorem C9_singleton_convergence (g : Option KMState)
    (db1 db2 : List String) (mf1 mf2 : Nat) :
    ((getKeyManager (getKeyManager g db1 mf1).1 db2 mf2).2 =
        (getKeyManager g db1 mf1).2 ∧
     (getKeyManager (getKeyManager g db1 mf1).1 db2 mf2).1 =
        (getKeyManager g db1 mf1).1) ∧
    (∀ inst, getKeyManager (resetKeyManager (some inst)) db2 mf2 =
        (some (createKeyManager db2 mf2), createKeyManager db2 mf2)) ∧
    (∀ inst, getKeyManager (some inst) db1 mf1 = (some inst, inst)) := by
  refine ⟨?_, fun inst => rfl, fun inst => rfl⟩
  cases g with
  | none => exact ⟨rfl, rfl⟩
  | some inst => exact ⟨rfl, rfl⟩

/-- C2: `getNextWorkingKey` fails with `NoKeysAvailable` exactly on the
empty pool (state fully unchanged), and with `AllKeysFailing` when the
pool is non-empty but every credential is invalid; in that scan it
inspects exactly one full cycle (the cursor advances by `keys.length`)
and both failure maps are left unchanged. -/
theorem C2_selection_failure (s : KMState) :
    (s.keys = [] → getNextWorkingKey s = (.error .noKeysAvailable, s)) ∧
    (s.keys ≠ [] → (∀ k ∈ s.keys, isKeyValid s k = false) →
      (getNextWorkingKey s).1 = .error .allKeysFailing ∧
      (getNextWorkingKey s).2.cursor = s.cursor + s.keys.length ∧
      (getNextWorkingKey s).2.failureCounts = s.failureCounts ∧
      (getNextWorkingKey s).2.lastFailureTimes = s.lastFailureTimes) := by
  constructor
  · intro h
    rw [getNextWorkingKey, if_pos (by simp [h])]
  · intro hne hall
    have hN : 0 < s.keys.length := List.length_pos.mpr hne
    have h0 : ¬ s.keys.length = 0 := by omega
    have hloop := nextKeyLoop_all_invalid s hN hall s.keys.length s.cursor
    rw [getNextWorkingKey, if_neg h0, hloop]
    exact ⟨rfl, rfl, rfl, rfl⟩

/-- C2 witness at concrete inputs: the empty pool raises
`NoKeysAvailable`; a pool of two keys that both reached the threshold
raises `AllKeysFailing` with counts untouched. -/
theorem C2_selection_failure_witness :
    getNextWorkingKey (KeyManager.init [] 3) =
        (.error .noKeysAvailable, KeyManager.init [] 3) ∧
    (getNextWorkingKey
        (repeatFailures (repeatFailures (KeyManager.init ["A", "B"] 1) "A"
          (fun _ => 0) 1) "B" (fun _ => 0) 1)).1 = .error .allKeysFailing := by
  constructor
  · exact (C2_selection_failure (KeyManager.init [] 3)).1 rfl
  · exact ((C2_selection_failure
      (repeatFailures (repeatFailures (KeyManager.init ["A", "B"] 1) "A"
        (fun _ => 0) 1) "B" (fun _ => 0) 1)).2 (by decide) (by decide)).1

/-- C1: in an all-healthy pool, consecutive `getNextWorkingKey` calls
are a pure rotation: the cursor carries over from call to call
(advancing by one each time, never restarting), the `(i+1)`-st call
returns the key at rotation position `cursor + i`, the `(N+1)`-st call
repeats the first call's key, and within the first `N` calls every
healthy credential is visited. -/
theorem C1_round_robin (s : KMState) (hN : 0 < s.keys.length)
    (hall : ∀ k ∈ s.keys, isKeyValid s k = true) :
    (∀ i, (iterKM s i).cursor = s.cursor + i) ∧
    (∀ i, nthResult s i =
        .ok (s.keys.getD ((s.cursor + i) % s.keys.length) "")) ∧
    nthResult s s.keys.length = nthResult s 0 ∧
    (∀ k ∈ s.keys, ∃ i, i < s.keys.length ∧ nthResult s i = .ok k) := by
  refine ⟨fun i => by rw [iterKM_all_healthy s hN hall i],
          fun i => nthResult_all_healthy s hN hall i, ?_, ?_⟩
  · rw [nthResult_all_healthy s hN hall, nthResult_all_healthy s hN hall]
    have h1 : (s.cursor + s.keys.length) % s.keys.length =
        (s.cursor + 0) % s.keys.length := by
      rw [Nat.add_zero, Nat.add_mod_right]
    rw [h1]
  · intro k hk
    obtain ⟨idx, hlt, hget⟩ := List.mem_iff_getElem.mp hk
    obtain ⟨i, hiN, hmod⟩ := rotation_hits s.keys.length s.cursor idx hN hlt
    refine ⟨i, hiN, ?_⟩
    rw [nthResult_all_healthy s hN hall i, hmod,
      List.getD_eq_getElem?_getD, List.getElem?_eq_getElem hlt]
    simpa using hget

/-- C1 witness at a concrete input: a fresh two-key pool yields "A",
then "B", and the third call repeats the first. -/
theorem C1_round_robin_witness :
    nthResult (KeyManager.init ["A", "B"] 3) 0 = .ok "A" ∧
    nthResult (KeyManager.init ["A", "B"] 3) 1 = .ok "B" ∧
    nthResult (KeyManager.init ["A", "B"] 3) 2 =
      nthResult (KeyManager.init ["A", "B"] 3) 0 := by
  have h := C1_round_robin (KeyManager.init ["A", "B"] 3) (by decide) (by decide)
  refine ⟨?_, ?_, h.2.2.1⟩
  · rw [h.2.1 0]; rfl
  · rw [h.2.1 1]; rfl

/-- C4: each `handleApiFailure` on a known credential increments its
count by exactly one and stamps its last-failure time; from a fresh
pool, `k` reports leave the count at exactly `k`, and the credential is
valid precisely while that count is below `maxFailures`. -/
theorem C4_failure_counting (keys : List String) (mf : Nat) (key : String)
    (times : Nat → Nat) (hk : key ∈ keys) :
    (∀ (s : KMState) (n t : Nat), s.failureCounts key = some n →
      (handleApiFailure s key t).failureCounts key = some (n + 1) ∧
      (handleApiFailure s key t).lastFailureTimes key = some t) ∧
    (∀ k, (repeatFailures (KeyManager.init keys mf) key times k).failureCounts
        key = some k) ∧
    (∀ k, isKeyValid (repeatFailures (KeyManager.init keys mf) key times k) key
        = decide (k < mf)) := by
  have hstep : ∀ (s : KMState) (n t : Nat), s.failureCounts key = some n →
      (handleApiFailure s key t).failureCounts key = some (n + 1) ∧
      (handleApiFailure s key t).lastFailureTimes key = some t := by
    intro s n t h
    rw [handleApiFailure, h]
    exact ⟨by simp, by simp⟩
  have hcount : ∀ k,
      (repeatFailures (KeyManager.init keys mf) key times k).failureCounts key
        = some k := by
    intro k
    induction k with
    | zero => simp [repeatFailures, KeyManager.init, hk]
    | succ n ih => exact (hstep _ n (times n) ih).1
  refine ⟨hstep, hcount, fun k => ?_⟩
  have hmf := repeatFailures_maxFailures (KeyManager.init keys mf) key times k
  simp only [isKeyValid, hcount k, hmf]
  rfl

/-- C4 witness at a concrete input: on a one-key pool with threshold 3,
the key is still valid after 2 reports, and invalid with count exactly
3 after the third. -/
theorem C4_failure_counting_witness :
    isKeyValid (repeatFailures (KeyManager.init ["A"] 3) "A" (fun _ => 0) 2)
      "A" = true ∧
    isKeyValid (repeatFailures (KeyManager.init ["A"] 3) "A" (fun _ => 0) 3)
      "A" = false ∧
    (repeatFailures (KeyManager.init ["A"] 3) "A" (fun _ => 0) 3).failureCounts
      "A" = some 3 := by
  have h := C4_failure_counting ["A"] 3 "A" (fun _ => 0) (by decide)
  refine ⟨?_, ?_, h.2.1 3⟩
  · rw [h.2.2 2]; rfl
  · rw [h.2.2 3]; rfl

/-- C3 counterexample: `verifyKey` does mutate pool state. With key "A"
at one recorded failure, a health check that gets a 2xx response
changes the key's failure count (to 0), contradicting the claim that
`verifyKey` leaves all failure counts unchanged for every upstream
outcome. -/
theorem C3_counterexample :
    (verifyKey (handleApiFailure (KeyManager.init ["A"] 3) "A" 7) "A"
        (.response 200)).2.failureCounts "A" ≠
      (handleApiFailure (KeyManager.init ["A"] 3) "A" 7).failureCounts "A" := by
  decide

/-- C3 amended: `verifyKey` leaves pool state unchanged on every
non-2xx response, transport failure and settings failure, but on a 2xx
response it resets the checked credential's count to 0 and clears its
timestamp itself (via `resetKeyFailureCount` inside the health check,
not in the reactivation sweep); entries of other credentials are never
touched. -/
theorem C3_verify_key_frame (s : KMState) (key : String) (st : Nat) :
    ((200 ≤ st ∧ st < 300) → (s.failureCounts key).isSome →
      (verifyKey s key (.response st)).2.failureCounts key = some 0 ∧
      (verifyKey s key (.response st)).2.lastFailureTimes key = none) ∧
    (¬ (200 ≤ st ∧ st < 300) → (verifyKey s key (.response st)).2 = s) ∧
    (verifyKey s key .transportError).2 = s ∧
    (verifyKey s key .settingsError).2 = s ∧
    (∀ k, k ≠ key →
      (verifyKey s key (.response st)).2.failureCounts k =
        s.failureCounts k ∧
      (verifyKey s key (.response st)).2.lastFailureTimes k =
        s.lastFailureTimes k) := by
  refine ⟨?_, ?_, rfl, rfl, ?_⟩
  · intro hrange hsome
    have hok : outcomeOk (.response st) = true := by
      simp [outcomeOk, responseOk, hrange.1, hrange.2]
    rw [verifyKey_state_ok s key _ hok]
    exact resetKeyFailureCount_self s key hsome
  · intro hrange
    have hfail : outcomeOk (.response st) = false := by
      simp only [outcomeOk, responseOk]
      rw [Bool.and_eq_false_iff]
      rcases Decidable.not_and_iff_or_not.mp hrange with h | h
      · exact Or.inl (by simpa using h)
      · exact Or.inr (by simpa using h)
    rw [verifyKey_state_fail s key _ hfail]
  · intro k hk
    exact verifyKey_frame_other s key k (.response st) hk

/-- C3 amended witness at a concrete input: a 2xx probe on key "A"
(one failure recorded) zeroes its count, a 404 probe leaves the state
exactly as it was, and key "B" is untouched by "A"'s probe. -/
theorem C3_verify_key_frame_witness :
    (verifyKey (handleApiFailure (KeyManager.init ["A", "B"] 3) "A" 7) "A"
        (.response 200)).2.failureCounts "A" = some 0 ∧
    (verifyKey (handleApiFailure (KeyManager.init ["A", "B"] 3) "A" 7) "A"
        (.response 404)).2 =
      handleApiFailure (KeyManager.init ["A", "B"] 3) "A" 7 ∧
    (verifyKey (handleApiFailure (KeyManager.init ["A", "B"] 3) "A" 7) "A"
        (.response 200)).2.failureCounts "B" =
      (handleApiFailure (KeyManager.init ["A", "B"] 3) "A" 7).failureCounts
        "B" := by
  have h200 := C3_verify_key_frame
    (handleApiFailure (KeyManager.init ["A", "B"] 3) "A" 7) "A" 200
  have h404 := C3_verify_key_frame
    (handleApiFailure (KeyManager.init ["A", "B"] 3) "A" 7) "A" 404
  exact ⟨(h200.1 (by decide) (by decide)).1, h404.2.1 (by decide),
    (h200.2.2.2.2 "B" (by decide)).1⟩

/-- C8: the reactivation sweep probes exactly the keys invalid at its
start (in list order, by definition of `checkAndReactivateKeys`); a
probed key whose check succeeds ends with count 0 and no timestamp, a
probed key whose check fails keeps both entries unchanged — whatever
the other probes do, so one failed check never aborts the rest of the
sweep — and keys healthy at the start are untouched. -/
theorem C8_reactivation_sweep (s : KMState)
    (outcome : String → UpstreamOutcome) :
    (∀ key ∈ s.keys, isKeyValid s key = false →
      (s.failureCounts key).isSome → outcomeOk (outcome key) = true →
      (checkAndReactivateKeys s outcome).failureCounts key = some 0 ∧
      (checkAndReactivateKeys s outcome).lastFailureTimes key = none) ∧
    (∀ key, isKeyValid s key = false → outcomeOk (outcome key) = false →
      (checkAndReactivateKeys s outcome).failureCounts key =
        s.failureCounts key ∧
      (checkAndReactivateKeys s outcome).lastFailureTimes key =
        s.lastFailureTimes key) ∧
    (∀ key, isKeyValid s key = true →
      (checkAndReactivateKeys s outcome).failureCounts key =
        s.failureCounts key ∧
      (checkAndReactivateKeys s outcome).lastFailureTimes key =
        s.lastFailureTimes key) := by
  refine ⟨?_, ?_, ?_⟩
  · intro key hmem hinv hsome hok
    have hfilter : key ∈ s.keys.filter fun k => !(isKeyValid s k) :=
      List.mem_filter.mpr ⟨hmem, by rw [hinv]; rfl⟩
    rw [checkAndReactivateKeys]
    exact sweep_fold_reset outcome key hok _ s hfilter hsome
  · intro key _ hfail
    rw [checkAndReactivateKeys]
    exact sweep_fold_frame_fail outcome key hfail _ s
  · intro key hvalid
    have hnotmem : key ∉ s.keys.filter fun k => !(isKeyValid s k) := by
      intro hmem
      have := (List.mem_filter.mp hmem).2
      rw [hvalid] at this
      simp at this
    rw [checkAndReactivateKeys]
    exact sweep_fold_frame_notmem outcome key _ s hnotmem

/-- C8 witness at a concrete input: both "X" and "Y" start at the
threshold (invalid); "X"'s probe gets a 2xx and ends with count 0,
"Y"'s probe hits a transport error and keeps count 1. -/
theorem C8_reactivation_sweep_witness :
    (checkAndReactivateKeys
      (repeatFailures (repeatFailures (KeyManager.init ["X", "Y"] 1) "X"
        (fun _ => 0) 1) "Y" (fun _ => 0) 1)
      (fun k =>
        if k = "X" then .response 200 else .transportError)).failureCounts
      "X" = some 0 ∧
    (checkAndReactivateKeys
      (repeatFailures (repeatFailures (KeyManager.init ["X", "Y"] 1) "X"
        (fun _ => 0) 1) "Y" (fun _ => 0) 1)
      (fun k =>
        if k = "X" then .response 200 else .transportError)).failureCounts
      "Y" = some 1 := by
  have h := C8_reactivation_sweep
    (repeatFailures (repeatFailures (KeyManager.init ["X", "Y"] 1) "X"
      (fun _ => 0) 1) "Y" (fun _ => 0) 1)
    (fun k => if k = "X" then .response 200 else .transportError)
  refine ⟨(h.1 "X" (by decide) (by decide) (by decide) (by decide)).1, ?_⟩
  have hy := (h.2.1 "Y" (by decide) (by decide)).1
  rw [hy]
  decide

/-- C10: the constructor keeps duplicates: a credential listed twice
occupies two rotation slots (the call at each of its list positions
returns it) and two snapshot rows, yet all occurrences share the single
failure counter keyed by the string, so once the reports on that one
string reach `maxFailures` every snapshot row of that credential shows
the threshold count and is no longer working. -/
theorem C10_duplicate_credentials (keys : List String) (mf : Nat)
    (key : String) (times : Nat → Nat) (h2 : 2 ≤ keys.count key)
    (hmf : 0 < mf) :
    (getAllKeys (KeyManager.init keys mf)).length = keys.length ∧
    2 ≤ ((getAllKeys (KeyManager.init keys mf)).filter
          fun r => r.key == key).length ∧
    (∀ i, (hi : i < keys.length) → keys[i] = key →
      nthResult (KeyManager.init keys mf) i = .ok key) ∧
    (∀ row ∈ getAllKeys (repeatFailures (KeyManager.init keys mf) key times
        mf), row.key = key → row.failCount = mf ∧ row.isWorking = false) := by
  have hk : key ∈ keys := by
    have : 0 < keys.count key := by omega
    exact List.count_pos_iff.mp this
  refine ⟨?_, ?_, ?_, ?_⟩
  · rw [getAllKeys, List.length_map]
    rfl
  · rw [getAllKeys_filter_length]
    exact h2
  · intro i hi hkey
    have hN : 0 < keys.length := by omega
    have hall := init_all_healthy keys mf hmf
    rw [nthResult_all_healthy (KeyManager.init keys mf) hN hall i]
    show Except.ok (keys.getD ((0 + i) % keys.length) "") = Except.ok key
    rw [Nat.zero_add, Nat.mod_eq_of_lt hi, List.getD_eq_getElem?_getD,
      List.getElem?_eq_getElem hi]
    simpa using hkey
  · intro row hrow hkey
    rw [getAllKeys] at hrow
    obtain ⟨k, hkmem, heq⟩ := List.mem_map.mp hrow
    have hk2 : k = key := by rw [← heq] at hkey; exact hkey
    have hc := repeatFailures_count keys mf key times hk mf
    have hm := repeatFailures_maxFailures (KeyManager.init keys mf) key
      times mf
    constructor
    · rw [← heq]
      show ((repeatFailures (KeyManager.init keys mf) key times
        mf).failureCounts k).getD 0 = mf
      rw [hk2, hc]
      rfl
    · rw [← heq]
      show isKeyValid (repeatFailures (KeyManager.init keys mf) key times mf)
        k = false
      rw [hk2]
      simp only [isKeyValid, hc, hm]
      show decide (mf < mf) = false
      simp

/-- C10 witness at a concrete input: in the pool ["A", "B", "A"] the
snapshot has three rows, at least two of them for "A", and the third
rotation slot (index 2) also yields "A". -/
theorem C10_duplicate_credentials_witness :
    (getAllKeys (KeyManager.init ["A", "B", "A"] 1)).length = 3 ∧
    2 ≤ ((getAllKeys (KeyManager.init ["A", "B", "A"] 1)).filter
          fun r => r.key == "A").length ∧
    nthResult (KeyManager.init ["A", "B", "A"] 1) 2 = .ok "A" := by
  have h := C10_duplicate_credentials ["A", "B", "A"] 1 "A" (fun _ => 0)
    (by decide) (by decide)
  exact ⟨h.1, h.2.1, h.2.2.1 2 (by decide) (by decide)⟩

end GeminiBalance
